import Mathlib

/-!
Verification of the `rtfm-syntax` configuration parser (`src/parse.rs`).

The source is a hand-written recursive-descent parser over `syn` 0.11 token
trees.  We embed the token-tree data model and every parsing function of
`src/parse.rs` as executable Lean definitions, and prove the specification
claims about them.

Modelling conventions:
* `syn::parse_token_trees` (the tokenizer) is an external collaborator per the
  spec; the entry point `Parse.app` here takes the already-tokenized
  `List TokenTree`.
* The mutable Rust cursor `Peekable<Iter<TokenTree>>` becomes explicit state
  passing: a parser takes a `List TokenTree` and returns the parsed value
  together with the remaining suffix of the list.
* `quote::Tokens` fragments (opaque captured token runs) are modelled as the
  captured `List TokenTree` itself.
* `HashMap` accumulators become association lists (insertion order); since the
  source checks `contains_key` before every insert, no overwrite can occur and
  the association-list model is faithful.  `HashSet` accumulators become
  `List String` with a membership check before insertion.
* The `chain_err(|| msg)` combinator of `error-chain` becomes prefixing the context note onto
  the error string.
* The closure state mutated by the `fields` callback becomes an explicit state
  parameter threaded through the field-list loop.  The loop is defined with a
  fuel parameter (initialised to `length + 1`); every handler consumes a suffix
  of its input and every iteration consumes at least the key and the colon, so
  the fuel can never run out on any reachable input.
-/

namespace Rtfm

/-- Delimiter kinds of `syn::DelimToken`. -/
inductive DelimToken where
  | Paren
  | Bracket
  | Brace
deriving DecidableEq

/-- Integer-literal suffixes of `syn::IntTy`; the parser only ever
distinguishes `Unsuffixed` from the rest. -/
inductive IntTy where
  | Isize
  | I8
  | I16
  | I32
  | I64
  | Usize
  | U8
  | U16
  | U32
  | U64
  | Unsuffixed
deriving DecidableEq

/-- Literals of `syn::Lit`; `Int` carries the `u64` value as a `Nat`.
String/char/float literals are carried opaquely, they are never inspected. -/
inductive Lit where
  | Str (s : String)
  | CharLit (c : Char)
  | Int (value : Nat) (ty : IntTy)
  | Bool (b : Bool)
  | Float (s : String)
deriving DecidableEq

/-- Leaf tokens of `syn::Token`.  The parser pattern-matches only on `Ident`,
`Colon`, `Comma`, `Semi`, `Eq` and `Literal`; every other `syn::Token` variant
(`Lt`, `Gt`, `ModSep`, `BinOp(Sub)`, ...) is collapsed into `Other` carrying
its surface text, since the parser treats all of them uniformly (as opaque
fragment material). -/
inductive Token where
  | Ident (s : String)
  | Colon
  | Comma
  | Semi
  | Eq
  | Literal (l : Lit)
  | Other (s : String)
deriving DecidableEq

/-- Token trees of `syn::TokenTree`: a leaf token or a delimited group
(`syn::Delimited { delim, tts }`). -/
inductive TokenTree where
  | Token (t : Token)
  | Delimited (delim : DelimToken) (tts : List TokenTree)

/-- Modelled from the spec (§3, "opaque fragment") and the `quote!` uses in
`parse.rs`: a captured fragment `quote!(#(#fragments)*)` is the run of
captured token trees itself. -/
abbrev Tokens := List TokenTree

/-- Debug rendering of a delimiter, for error messages (`{:?}`). -/
def fmtDelim : DelimToken → String
  | .Paren => "Paren"
  | .Bracket => "Bracket"
  | .Brace => "Brace"

/-- Debug rendering of an integer suffix, for error messages. -/
def fmtIntTy : IntTy → String
  | .Isize => "Isize"
  | .I8 => "I8"
  | .I16 => "I16"
  | .I32 => "I32"
  | .I64 => "I64"
  | .Usize => "Usize"
  | .U8 => "U8"
  | .U16 => "U16"
  | .U32 => "U32"
  | .U64 => "U64"
  | .Unsuffixed => "Unsuffixed"

/-- Debug rendering of a literal, for error messages. -/
def fmtLit : Lit → String
  | .Str s => "Str(" ++ s ++ ")"
  | .CharLit c => "Char(" ++ String.mk [c] ++ ")"
  | .Int v ty => "Int(" ++ toString v ++ ", " ++ fmtIntTy ty ++ ")"
  | .Bool b => "Bool(" ++ toString b ++ ")"
  | .Float s => "Float(" ++ s ++ ")"

/-- Debug rendering of a leaf token, for error messages. -/
def fmtTok : Token → String
  | .Ident s => "Ident(" ++ s ++ ")"
  | .Colon => "Colon"
  | .Comma => "Comma"
  | .Semi => "Semi"
  | .Eq => "Eq"
  | .Literal l => "Literal(" ++ fmtLit l ++ ")"
  | .Other s => "Other(" ++ s ++ ")"

mutual

/-- Debug rendering of a token tree, for error messages. -/
def fmtTT : TokenTree → String
  | .Token t => "Token(" ++ fmtTok t ++ ")"
  | .Delimited d tts =>
      "Delimited \x7b delim: " ++ fmtDelim d ++ ", tts: [" ++ fmtTTs tts ++ "] \x7d"

/-- Debug rendering of a token-tree list. -/
def fmtTTs : List TokenTree → String
  | [] => ""
  | [tt] => fmtTT tt
  | tt :: tts => fmtTT tt ++ ", " ++ fmtTTs tts

end

/-- Debug rendering of an optional token tree (the result of `tts.next()`). -/
def fmtOpt : Option TokenTree → String
  | none => "None"
  | some tt => "Some(" ++ fmtTT tt ++ ")"

/-- Debug rendering of the head of the remaining stream, as the source prints
the `Option` returned by `tts.next()`. -/
def nextFmt (tts : List TokenTree) : String :=
  fmtOpt tts.head?

/-- Test for the leaf token `Comma` (the comparison
`tt == &&TokenTree::Token(Token::Comma)` of the source). -/
def isComma : TokenTree → Bool
  | .Token .Comma => true
  | _ => false

/-- Test for the leaf token `Eq` (the comparison in the first scan of
`static_`). -/
def isEqTok : TokenTree → Bool
  | .Token .Eq => true
  | _ => false

/-- Test for the leaf token `Semi` (the comparison in the second scan of
`static_`). -/
def isSemiTok : TokenTree → Bool
  | .Token .Semi => true
  | _ => false

/-- True when any top-level token of the run is a comma; groups are opaque. -/
def hasTopComma (tts : List TokenTree) : Bool :=
  tts.any isComma

/-- True when any top-level token of the run is an equals sign. -/
def hasTopEq (tts : List TokenTree) : Bool :=
  tts.any isEqTok

/-- True when any top-level token of the run is a semicolon. -/
def hasTopSemi (tts : List TokenTree) : Bool :=
  tts.any isSemiTok

/-- Modelled from the spec (§3 "Static") and the `Static { expr, ty }`
construction in `parse.rs`: the captured type and initializer fragments. -/
structure Static where
  expr : Tokens
  ty : Tokens

/-- Modelled from the spec (§3): map from resource name to `Static`. -/
abbrev Statics := List (String × Static)

/-- Modelled from the spec (§3): a set of resource-name identifiers. -/
abbrev Idents := List String

/-- Modelled from the spec (§3 "Init") and the `Init { path }` construction in
`parse.rs`. -/
structure Init where
  path : Tokens

/-- Modelled from the spec (§3 "Idle") and the `Idle { locals, path,
resources }` construction in `parse.rs`. -/
structure Idle where
  locals : Statics
  path : Tokens
  resources : Idents

/-- Modelled from the spec (§3 "Task") and the `Task { enabled, priority,
resources }` construction in `parse.rs`; `priority` is a `u8` in the source,
modelled as a `Nat` (the coercer guarantees it is below 256). -/
structure Task where
  enabled : Option Bool
  priority : Option Nat
  resources : Idents

/-- Modelled from the spec (§3): map from task name to `Task`. -/
abbrev Tasks := List (String × Task)

/-- Modelled from the spec (§3 "App") and the `App { device, idle, init,
resources, tasks }` construction in `parse.rs`. -/
structure App where
  device : Tokens
  idle : Idle
  init : Init
  resources : Statics
  tasks : Tasks

/-- Key lookup in an association-list map (`HashMap::contains_key`). -/
def containsKey {α : Type} (m : List (String × α)) (k : String) : Bool :=
  m.any (fun p => p.1 == k)

/-- Error-chain context note: `chain_err(|| msg)` wraps the inner error with
an outer description. -/
def chainErr (msg e : String) : String :=
  msg ++ ": " ++ e

/-- True exactly on `Except.error`. -/
def isErr {α : Type} : Except String α → Bool
  | .error _ => true
  | .ok _ => false

namespace Parse

/-- Embedding of `fn bool` (`parse.rs` lines 67–73): coerce the token returned
by `tts.next()` to a boolean literal. -/
def bool : Option TokenTree → Except String Bool
  | some (.Token (.Literal (.Bool b))) => .ok b
  | tt => .error ("expected boolean, found " ++ fmtOpt tt)

/-- Embedding of `fn u8` (`parse.rs` lines 392–405): coerce the token returned
by `tts.next()` to an unsuffixed integer literal below 256. -/
def u8 : Option TokenTree → Except String Nat
  | some (.Token (.Literal (.Int priority .Unsuffixed))) =>
      if priority < 256 then .ok priority
      else .error (toString priority ++ " is out of the `u8` range")
  | tt => .error ("expected integer, found " ++ fmtOpt tt)

/-- Embedding of `fn delimited` (`parse.rs` lines 75–96): consume exactly one
token tree, require it to be a delimited group of the expected kind, and run
the continuation on the inner token sequence of the group. -/
def delimited {R : Type} (delimiter : DelimToken)
    (f : List TokenTree → Except String R) :
    List TokenTree → Except String (R × List TokenTree)
  | .Delimited delim block :: rest =>
      if delim = delimiter then
        (f block).map (fun r => (r, rest))
      else
        .error ("expected " ++ fmtDelim delimiter ++ ", found " ++ fmtDelim delim)
  | tts =>
      .error ("expected a Delimited sequence, found " ++ nextFmt tts)

/-- Embedding of `fn path` (`parse.rs` lines 305–323): greedily collect tokens
up to, and not including, the next top-level comma; reaching the end of the
stream without a comma is an error. -/
def path : List TokenTree → Except String (Tokens × List TokenTree)
  | [] => .error "expected Comma, found end of macro"
  | tt :: tts =>
      if isComma tt then .ok ([], tt :: tts)
      else
        match path tts with
        | .error e => .error e
        | .ok (fragments, rest) => .ok (tt :: fragments, rest)

/-- First scan of `fn static_` (`parse.rs` lines 234–245): collect tokens up
to a top-level equals sign, consuming it; delimited groups are single opaque
units. -/
def takeUntilEq : List TokenTree → Except String (Tokens × List TokenTree)
  | [] => .error "expected Equal, found end of macro"
  | tt :: tts =>
      if isEqTok tt then .ok ([], tts)
      else
        match takeUntilEq tts with
        | .error e => .error e
        | .ok (fragments, rest) => .ok (tt :: fragments, rest)

/-- Second scan of `fn static_` (`parse.rs` lines 250–261): collect tokens up
to a top-level semicolon, consuming it. -/
def takeUntilSemi : List TokenTree → Except String (Tokens × List TokenTree)
  | [] => .error "expected Semicolon, found end of macro"
  | tt :: tts =>
      if isSemiTok tt then .ok ([], tts)
      else
        match takeUntilSemi tts with
        | .error e => .error e
        | .ok (fragments, rest) => .ok (tt :: fragments, rest)

/-- Embedding of `fn static_` (`parse.rs` lines 233–267): scan a type fragment
up to a top-level `=`, then an initializer fragment up to a top-level `;`;
both fragments must be non-empty. -/
def static_ (tts : List TokenTree) : Except String (Static × List TokenTree) := do
  let (tyFragments, tts) ← takeUntilEq tts
  if tyFragments.isEmpty then
    throw "type is missing"
  else
    let (exprFragments, tts) ← takeUntilSemi tts
    if exprFragments.isEmpty then
      throw "initial value is missing"
    else
      pure ({ expr := exprFragments, ty := tyFragments }, tts)

/-- Loop body of `fn idents` (`parse.rs` lines 132–162): repeatedly consume an
identifier (fresh in this set), then a comma (stopping if the comma ends the
group) or end-of-group. -/
def identsGo (acc : Idents) : List TokenTree → Except String Idents
  | [] => .ok acc
  | .Token (.Ident ident) :: tts =>
      if acc.contains ident then
        .error "ident \x7b\x7d listed more than once"
      else
        let acc := acc ++ [ident]
        match tts with
        | [] => .ok acc
        | tt :: tts2 =>
            if isComma tt then
              match tts2 with
              | [] => .ok acc
              | _ :: _ => identsGo acc tts2
            else
              .error ("expected Comma, found " ++ fmtTT tt)
  | tt :: _ => .error ("expected Ident, found " ++ fmtTT tt)

/-- Embedding of `fn idents` (`parse.rs` lines 130–164): a bracket-delimited
identifier set. -/
def idents : List TokenTree → Except String (Idents × List TokenTree) :=
  delimited .Bracket (fun tts => identsGo [] tts)

/-- Loop body of `fn statics` (`parse.rs` lines 274–299), with fuel: repeatedly
consume a fresh resource name, a colon, and one `static_` declaration. -/
def staticsGo : Nat → Statics → List TokenTree → Except String Statics
  | 0, _, _ => .error "recursion limit reached"
  | _ + 1, acc, [] => .ok acc
  | fuel + 1, acc, .Token (.Ident ident) :: tts =>
      if containsKey acc ident then
        .error ("resource " ++ ident ++ " listed more than once")
      else
        match tts with
        | .Token .Colon :: tts2 =>
            match static_ tts2 with
            | .error e => .error (chainErr ("parsing `" ++ ident ++ "`") e)
            | .ok (s, rest) => staticsGo fuel (acc ++ [(ident, s)]) rest
        | tts2 => .error ("expected Colon, found " ++ nextFmt tts2)
  | _ + 1, _, tt :: _ => .error ("expected Ident, found " ++ fmtTT tt)

/-- Embedding of `fn statics` (`parse.rs` lines 270–303): a brace-delimited,
semicolon-separated map of static declarations. -/
def statics : List TokenTree → Except String (Statics × List TokenTree) :=
  delimited .Brace (fun tts => staticsGo (tts.length + 1) [] tts)

/-- Loop of `fn fields` (`parse.rs` lines 99–128), with explicit handler state
(the mutable closure environment of the source) and fuel: repeatedly consume a
key identifier and a colon, run the handler, then require a comma or
end-of-sequence. -/
def fieldsGo {σ : Type}
    (f : String → σ → List TokenTree → Except String (σ × List TokenTree)) :
    Nat → σ → List TokenTree → Except String σ
  | 0, _, _ => .error "recursion limit reached"
  | _ + 1, st, [] => .ok st
  | fuel + 1, st, .Token (.Ident id) :: tts =>
      match tts with
      | .Token .Colon :: tts2 =>
          match f id st tts2 with
          | .error e => .error e
          | .ok (st2, tts3) =>
              match tts3 with
              | [] => .ok st2
              | .Token .Comma :: tts4 => fieldsGo f fuel st2 tts4
              | tt :: _ => .error ("expected Comma, found " ++ fmtOpt (some tt))
      | tts2 => .error ("expected Colon, found " ++ nextFmt tts2)
  | _ + 1, _, tt :: _ => .error ("expected Ident, found " ++ fmtTT tt)

/-- Embedding of `fn fields` (`parse.rs` lines 99–128).  The fuel is one more
than the input length; each iteration consumes at least the key and the colon,
so the fuel bound is never reached. -/
def fields {σ : Type}
    (f : String → σ → List TokenTree → Except String (σ × List TokenTree))
    (st : σ) (tts : List TokenTree) : Except String σ :=
  fieldsGo f (tts.length + 1) st tts

/-- Accumulator of the `idle` parser (the `locals`/`path`/`resources` slots of
`parse.rs` lines 168–170). -/
structure IdleState where
  locals : Option Statics := none
  path : Option Tokens := none
  resources : Option Idents := none

/-- Field handler of `fn idle` (`parse.rs` lines 172–199). -/
def idleStep (key : String) (st : IdleState) (tts : List TokenTree) :
    Except String (IdleState × List TokenTree) :=
  match key with
  | "path" =>
      if st.path.isSome then .error "duplicated `path` field"
      else
        match path tts with
        | .error e => .error e
        | .ok (p, rest) => .ok ({ st with path := some p }, rest)
  | "locals" =>
      if st.locals.isSome then .error "duplicated `locals` field"
      else
        match statics tts with
        | .error e => .error (chainErr "parsing `locals`" e)
        | .ok (ls, rest) => .ok ({ st with locals := some ls }, rest)
  | "resources" =>
      if st.resources.isSome then .error "duplicated `resources` field"
      else
        match idents tts with
        | .error e => .error (chainErr "parsing `resources`" e)
        | .ok (ids, rest) => .ok ({ st with resources := some ids }, rest)
  | _ => .error ("unknown field: `" ++ key ++ "`")

/-- Embedding of `fn idle` (`parse.rs` lines 166–207). -/
def idle : List TokenTree → Except String (Idle × List TokenTree) :=
  delimited .Brace (fun tts => do
    let st ← fields idleStep {} tts
    match st.path with
    | none => throw "`path` field missing"
    | some p =>
        pure { locals := st.locals.getD [], path := p,
               resources := st.resources.getD [] })

/-- Accumulator of the `init` parser (the `path` slot of `parse.rs` line 211). -/
structure InitState where
  path : Option Tokens := none

/-- Field handler of `fn init` (`parse.rs` lines 213–224). -/
def initStep (key : String) (st : InitState) (tts : List TokenTree) :
    Except String (InitState × List TokenTree) :=
  match key with
  | "path" =>
      if st.path.isSome then .error "duplicated `path` field"
      else
        match path tts with
        | .error e => .error e
        | .ok (p, rest) => .ok ({ st with path := some p }, rest)
  | _ => .error ("unknown field: `" ++ key ++ "`")

/-- Embedding of `fn init` (`parse.rs` lines 209–230). -/
def init : List TokenTree → Except String (Init × List TokenTree) :=
  delimited .Brace (fun tts => do
    let st ← fields initStep {} tts
    match st.path with
    | none => throw "`path` field missing"
    | some p => pure { path := p })

/-- Accumulator of the `task` parser (the `enabled`/`priority`/`resources`
slots of `parse.rs` lines 327–329). -/
structure TaskState where
  enabled : Option Bool := none
  priority : Option Nat := none
  resources : Option Idents := none

/-- Field handler of `fn task` (`parse.rs` lines 331–358); `enabled` and
`priority` consume exactly one token via `tts.next()`. -/
def taskStep (key : String) (st : TaskState) (tts : List TokenTree) :
    Except String (TaskState × List TokenTree) :=
  match key with
  | "enabled" =>
      if st.enabled.isSome then .error "duplicated `enabled` field"
      else
        match bool tts.head? with
        | .error e => .error (chainErr "parsing `enabled`" e)
        | .ok b => .ok ({ st with enabled := some b }, tts.tail)
  | "priority" =>
      if st.priority.isSome then .error "duplicated `priority` field"
      else
        match u8 tts.head? with
        | .error e => .error (chainErr "parsing `priority`" e)
        | .ok p => .ok ({ st with priority := some p }, tts.tail)
  | "resources" =>
      if st.resources.isSome then .error "duplicated `resources` field"
      else
        match idents tts with
        | .error e => .error (chainErr "parsing `resources`" e)
        | .ok (ids, rest) => .ok ({ st with resources := some ids }, rest)
  | _ => .error ("unknown field: `" ++ key ++ "`")

/-- Embedding of `fn task` (`parse.rs` lines 325–366). -/
def task : List TokenTree → Except String (Task × List TokenTree) :=
  delimited .Brace (fun tts => do
    let st ← fields taskStep {} tts
    pure { enabled := st.enabled, priority := st.priority,
           resources := st.resources.getD [] })

/-- Field handler of `fn tasks` (`parse.rs` lines 372–386): every key is a
task name; duplicates are fatal. -/
def tasksStep (key : String) (m : Tasks) (tts : List TokenTree) :
    Except String (Tasks × List TokenTree) :=
  if containsKey m key then
    .error ("task " ++ key ++ " listed more than once")
  else
    match task tts with
    | .error e => .error (chainErr ("parsing task `" ++ key ++ "`") e)
    | .ok (t, rest) => .ok (m ++ [(key, t)], rest)

/-- Embedding of `fn tasks` (`parse.rs` lines 368–390). -/
def tasks : List TokenTree → Except String (Tasks × List TokenTree) :=
  delimited .Brace (fun tts => fields tasksStep [] tts)

/-- Accumulator of the top-level parser (the five slots of `parse.rs` lines
15–19). -/
structure AppState where
  device : Option Tokens := none
  idle : Option Idle := none
  init : Option Init := none
  resources : Option Statics := none
  tasks : Option Tasks := none

/-- Field handler of `fn app` (`parse.rs` lines 21–56): dispatch on the five
recognized keys, rejecting duplicates and unknown fields. -/
def appStep (key : String) (st : AppState) (tts : List TokenTree) :
    Except String (AppState × List TokenTree) :=
  match key with
  | "device" =>
      if st.device.isSome then .error "duplicated `device` field"
      else
        match path tts with
        | .error e => .error (chainErr "parsing `device`" e)
        | .ok (p, rest) => .ok ({ st with device := some p }, rest)
  | "idle" =>
      if st.idle.isSome then .error "duplicated `idle` field"
      else
        match idle tts with
        | .error e => .error (chainErr "parsing `idle`" e)
        | .ok (i, rest) => .ok ({ st with idle := some i }, rest)
  | "init" =>
      if st.init.isSome then .error "duplicated `init` field"
      else
        match init tts with
        | .error e => .error (chainErr "parsing `init`" e)
        | .ok (i, rest) => .ok ({ st with init := some i }, rest)
  | "resources" =>
      if st.resources.isSome then .error "duplicated `resources` field"
      else
        match statics tts with
        | .error e => .error (chainErr "parsing `resources`" e)
        | .ok (rs, rest) => .ok ({ st with resources := some rs }, rest)
  | "tasks" =>
      if st.tasks.isSome then .error "duplicated `tasks` field"
      else
        match tasks tts with
        | .error e => .error (chainErr "parsing `tasks`" e)
        | .ok (ts, rest) => .ok ({ st with tasks := some ts }, rest)
  | _ => .error ("unknown field: `" ++ key ++ "`")

/-- Assembly step of `fn app` (`parse.rs` lines 58–64): `device`, `idle` and
`init` are mandatory; `resources` and `tasks` default to empty maps. -/
def mkApp (st : AppState) : Except String App :=
  match st.device with
  | none => .error "`device` field is missing"
  | some device =>
      match st.idle with
      | none => .error "`idle` field is missing"
      | some idle =>
          match st.init with
          | none => .error "`init` field is missing"
          | some init =>
              .ok { device := device, idle := idle, init := init,
                    resources := st.resources.getD [],
                    tasks := st.tasks.getD [] }

/-- Embedding of `pub fn app` (`parse.rs` lines 12–65).  The source first runs
the external tokenizer `syn::parse_token_trees` on the raw string; here the
entry point receives that token-tree sequence directly.  Note that the field
list is walked directly on the full sequence: no enclosing delimited group is
consumed at the top level. -/
def app (tts : List TokenTree) : Except String App := do
  let st ← fields appStep {} tts
  mkApp st

end Parse

/-! Shorthand constructors for concrete token streams. -/

/-- Identifier leaf token. -/
abbrev tId (s : String) : TokenTree := .Token (.Ident s)

/-- Colon leaf token. -/
abbrev tColon : TokenTree := .Token .Colon

/-- Comma leaf token. -/
abbrev tComma : TokenTree := .Token .Comma

/-- Semicolon leaf token. -/
abbrev tSemi : TokenTree := .Token .Semi

/-- Equals-sign leaf token. -/
abbrev tEq : TokenTree := .Token .Eq

/-- Unsuffixed integer literal token. -/
abbrev tInt (n : Nat) : TokenTree := .Token (.Literal (.Int n .Unsuffixed))

/-- Brace-delimited group. -/
abbrev tBrace (tts : List TokenTree) : TokenTree := .Delimited .Brace tts

/-- Bracket-delimited group. -/
abbrev tBracket (tts : List TokenTree) : TokenTree := .Delimited .Bracket tts

/-- Paren-delimited group. -/
abbrev tParen (tts : List TokenTree) : TokenTree := .Delimited .Paren tts

/-- Leaf token for punctuation the parser never inspects (`<`, `>`, `::`, `-`). -/
abbrev tOther (s : String) : TokenTree := .Token (.Other s)

/-- The end-to-end scenario of the spec exactly as written in its §8 bullet —
`{ device: stm32, idle: { path: idle_fn }, init: { path: init_fn },
resources: { R: u8 = 0; }, tasks: { t1: { priority: 1, resources: [R] } } }` —
tokenized: the outer braces become one brace-delimited group around this
field list. -/
def scenarioBody : List TokenTree :=
  [tId "device", tColon, tId "stm32", tComma,
   tId "idle", tColon, tBrace [tId "path", tColon, tId "idle_fn"], tComma,
   tId "init", tColon, tBrace [tId "path", tColon, tId "init_fn"], tComma,
   tId "resources", tColon, tBrace [tId "R", tColon, tId "u8", tEq, tInt 0, tSemi], tComma,
   tId "tasks", tColon, tBrace [tId "t1", tColon,
     tBrace [tId "priority", tColon, tInt 1, tComma,
             tId "resources", tColon, tBracket [tId "R"]]]]

/-- The variant of the scenario body the parser accepts: no outer braces, and
a trailing comma after each dotted-path fragment (`path` captures up to a
comma and rejects end-of-group). -/
def scenarioFixed : List TokenTree :=
  [tId "device", tColon, tId "stm32", tComma,
   tId "idle", tColon, tBrace [tId "path", tColon, tId "idle_fn", tComma], tComma,
   tId "init", tColon, tBrace [tId "path", tColon, tId "init_fn", tComma], tComma,
   tId "resources", tColon, tBrace [tId "R", tColon, tId "u8", tEq, tInt 0, tSemi], tComma,
   tId "tasks", tColon, tBrace [tId "t1", tColon,
     tBrace [tId "priority", tColon, tInt 1, tComma,
             tId "resources", tColon, tBracket [tId "R"]]]]

/-- A minimal accepted top-level input: the three mandatory fields, written as
a bare field list (eleven top-level token trees, not one brace group). -/
def minimalInput : List TokenTree :=
  [tId "device", tColon, tId "d", tComma,
   tId "idle", tColon, tBrace [tId "path", tColon, tId "p", tComma], tComma,
   tId "init", tColon, tBrace [tId "path", tColon, tId "q", tComma]]

/-- An accepted input whose `device` and both `path` fragments are empty: each
capture position is immediately followed by its terminating comma. -/
def emptyFragInput : List TokenTree :=
  [tId "device", tColon, tComma,
   tId "idle", tColon, tBrace [tId "path", tColon, tComma], tComma,
   tId "init", tColon, tBrace [tId "path", tColon, tComma]]

/-!
Generator for the family of valid top-level inputs.  A valid input is
presented by its field structure: a list of top-level fields in any order,
each rendered as `key: value` followed by a comma (the parser accepts a
trailing comma at every level, so every field list is rendered in this
canonical comma-terminated form; for the captured `device` and `path`
fragments the comma is in any case mandatory, being the capture terminator).
The validity predicates state exactly the conditions under which every
sub-parse succeeds: at most one occurrence per key (a second occurrence
would find its slot populated), comma-free captured fragments, non-empty
equals/semicolon-free static fragments, duplicate-free names, priorities
below 256, and a `path` field inside every idle block; an init block renders
as `{ path: <p>, }`, the only body its parser accepts.
-/

/-- Bind on a successful `Except` computation. -/
@[simp]
theorem except_bind_ok {α β : Type} (a : α) (f : α → Except String β) :
    (Except.ok a >>= f) = f a := rfl

/-- Bind on a failed `Except` computation. -/
@[simp]
theorem except_bind_error {α β : Type} (e : String) (f : α → Except String β) :
    ((Except.error e : Except String α) >>= f) = .error e := rfl

/-- Map on a successful `Except` computation. -/
@[simp]
theorem except_map_ok {α β : Type} (a : α) (f : α → β) :
    (Except.ok a : Except String α).map f = .ok (f a) := rfl

/-- Map on a failed `Except` computation. -/
@[simp]
theorem except_map_error {α β : Type} (e : String) (f : α → β) :
    (Except.error e : Except String α).map f = .error e := rfl

/-- Pure for the `Except` monad is `ok`. -/
@[simp]
theorem except_pure_eq {α : Type} (a : α) :
    (pure a : Except String α) = .ok a := rfl

/-- The dotted-path capture fails at end of stream when no top-level comma
exists. -/
theorem path_no_comma :
    ∀ d : List TokenTree, hasTopComma d = false →
      Parse.path d = .error "expected Comma, found end of macro" := by
  intro d
  induction d with
  | nil => intro _; simp [Parse.path]
  | cons t ts ih =>
      intro h
      simp only [hasTopComma, List.any_cons, Bool.or_eq_false_iff] at h
      simp [Parse.path, h.1, ih h.2]

/-- The type scan of `static_` stops exactly at the first top-level equals
sign, consuming it. -/
theorem takeUntilEq_append (r : List TokenTree) :
    ∀ a : List TokenTree, hasTopEq a = false →
      Parse.takeUntilEq (a ++ .Token .Eq :: r) = .ok (a, r) := by
  intro a
  induction a with
  | nil => intro _; simp [Parse.takeUntilEq, isEqTok]
  | cons t ts ih =>
      intro h
      simp only [hasTopEq, List.any_cons, Bool.or_eq_false_iff] at h
      simp [Parse.takeUntilEq, h.1, ih h.2]

/-- The type scan of `static_` fails at end of stream when no top-level equals
sign exists. -/
theorem takeUntilEq_none :
    ∀ a : List TokenTree, hasTopEq a = false →
      Parse.takeUntilEq a = .error "expected Equal, found end of macro" := by
  intro a
  induction a with
  | nil => intro _; simp [Parse.takeUntilEq]
  | cons t ts ih =>
      intro h
      simp only [hasTopEq, List.any_cons, Bool.or_eq_false_iff] at h
      simp [Parse.takeUntilEq, h.1, ih h.2]

/-- The initializer scan of `static_` stops exactly at the first top-level
semicolon, consuming it. -/
theorem takeUntilSemi_append (r : List TokenTree) :
    ∀ a : List TokenTree, hasTopSemi a = false →
      Parse.takeUntilSemi (a ++ .Token .Semi :: r) = .ok (a, r) := by
  intro a
  induction a with
  | nil => intro _; simp [Parse.takeUntilSemi, isSemiTok]
  | cons t ts ih =>
      intro h
      simp only [hasTopSemi, List.any_cons, Bool.or_eq_false_iff] at h
      simp [Parse.takeUntilSemi, h.1, ih h.2]

/-- Any state invariant preserved by the handler is preserved by the
field-list loop. -/
theorem fieldsGo_preserve {σ : Type}
    (f : String → σ → List TokenTree → Except String (σ × List TokenTree))
    (P : σ → Prop)
    (hf : ∀ k st tts st2 rest, f k st tts = .ok (st2, rest) → P st → P st2) :
    ∀ fuel (st : σ) tts st2,
      Parse.fieldsGo f fuel st tts = .ok st2 → P st → P st2 := by
  intro fuel
  induction fuel with
  | zero =>
      intro st tts st2 h
      simp [Parse.fieldsGo] at h
  | succ n ih =>
      intro st tts st2 h hP
      rcases tts with _ | ⟨tt, tts⟩
      · simp [Parse.fieldsGo] at h; exact h ▸ hP
      rcases tt with t | ⟨d, grp⟩
      case Delimited => simp [Parse.fieldsGo] at h
      rcases t with s | _ | _ | _ | _ | l | s
      case Colon => simp [Parse.fieldsGo] at h
      case Comma => simp [Parse.fieldsGo] at h
      case Semi => simp [Parse.fieldsGo] at h
      case Eq => simp [Parse.fieldsGo] at h
      case Literal => simp [Parse.fieldsGo] at h
      case Other => simp [Parse.fieldsGo] at h
      case Ident =>
        rcases tts with _ | ⟨tt2, tts2⟩
        · simp [Parse.fieldsGo] at h
        rcases tt2 with t2 | ⟨d2, grp2⟩
        case Delimited => simp [Parse.fieldsGo] at h
        rcases t2 with s2 | _ | _ | _ | _ | l2 | s2
        case Ident => simp [Parse.fieldsGo] at h
        case Comma => simp [Parse.fieldsGo] at h
        case Semi => simp [Parse.fieldsGo] at h
        case Eq => simp [Parse.fieldsGo] at h
        case Literal => simp [Parse.fieldsGo] at h
        case Other => simp [Parse.fieldsGo] at h
        case Colon =>
          simp only [Parse.fieldsGo] at h
          cases hf2 : f s st tts2 with
          | error e => simp [hf2] at h
          | ok pr =>
            obtain ⟨stA, tts3⟩ := pr
            simp only [hf2] at h
            have hPA : P stA := hf _ _ _ _ _ hf2 hP
            rcases tts3 with _ | ⟨tt3, tts4⟩
            · injection h with h2; exact h2 ▸ hPA
            rcases tt3 with t3 | ⟨d3, grp3⟩
            case Delimited => simp at h
            rcases t3 with s3 | _ | _ | _ | _ | l3 | s3
            case Ident => simp at h
            case Colon => simp at h
            case Semi => simp at h
            case Eq => simp at h
            case Literal => simp at h
            case Other => simp at h
            case Comma => exact ih stA tts4 st2 h hPA

/-- The initializer scan of `static_` fails at end of stream when no top-level
semicolon exists. -/
theorem takeUntilSemi_none :
    ∀ a : List TokenTree, hasTopSemi a = false →
      Parse.takeUntilSemi a = .error "expected Semicolon, found end of macro" := by
  intro a
  induction a with
  | nil => intro _; simp [Parse.takeUntilSemi]
  | cons t ts ih =>
      intro h
      simp only [hasTopSemi, List.any_cons, Bool.or_eq_false_iff] at h
      simp [Parse.takeUntilSemi, h.1, ih h.2]

/-- The top-level field handler never forgets an already-populated slot: every
slot that is `some` before a successful step is the same `some` afterwards. -/
theorem appStep_preserves :
    ∀ k st tts st2 rest, Parse.appStep k st tts = .ok (st2, rest) →
      (∀ v, st.device = some v → st2.device = some v) ∧
      (∀ v, st.idle = some v → st2.idle = some v) ∧
      (∀ v, st.init = some v → st2.init = some v) ∧
      (∀ v, st.resources = some v → st2.resources = some v) ∧
      (∀ v, st.tasks = some v → st2.tasks = some v) := by
  intro k st tts st2 rest h
  unfold Parse.appStep at h
  split at h
  · split at h
    · simp at h
    · split at h
      · simp at h
      · cases h
        refine ⟨?_, ?_, ?_, ?_, ?_⟩ <;> intro v hv <;> simp_all
  · split at h
    · simp at h
    · split at h
      · simp at h
      · cases h
        refine ⟨?_, ?_, ?_, ?_, ?_⟩ <;> intro v hv <;> simp_all
  · split at h
    · simp at h
    · split at h
      · simp at h
      · cases h
        refine ⟨?_, ?_, ?_, ?_, ?_⟩ <;> intro v hv <;> simp_all
  · split at h
    · simp at h
    · split at h
      · simp at h
      · cases h
        refine ⟨?_, ?_, ?_, ?_, ?_⟩ <;> intro v hv <;> simp_all
  · split at h
    · simp at h
    · split at h
      · simp at h
      · cases h
        refine ⟨?_, ?_, ?_, ?_, ?_⟩ <;> intro v hv <;> simp_all
  · simp at h

/-- The idle field handler never forgets an already-populated slot. -/
theorem idleStep_preserves :
    ∀ k st tts st2 rest, Parse.idleStep k st tts = .ok (st2, rest) →
      (∀ v, st.locals = some v → st2.locals = some v) ∧
      (∀ v, st.path = some v → st2.path = some v) ∧
      (∀ v, st.resources = some v → st2.resources = some v) := by
  intro k st tts st2 rest h
  unfold Parse.idleStep at h
  split at h
  · split at h
    · simp at h
    · split at h
      · simp at h
      · cases h
        refine ⟨?_, ?_, ?_⟩ <;> intro v hv <;> simp_all
  · split at h
    · simp at h
    · split at h
      · simp at h
      · cases h
        refine ⟨?_, ?_, ?_⟩ <;> intro v hv <;> simp_all
  · split at h
    · simp at h
    · split at h
      · simp at h
      · cases h
        refine ⟨?_, ?_, ?_⟩ <;> intro v hv <;> simp_all
  · simp at h

/-- The init field handler never forgets an already-populated `path`. -/
theorem initStep_preserves :
    ∀ k st tts st2 rest, Parse.initStep k st tts = .ok (st2, rest) →
      ∀ v, st.path = some v → st2.path = some v := by
  intro k st tts st2 rest h
  unfold Parse.initStep at h
  split at h
  · split at h
    · simp at h
    · split at h
      · simp at h
      · cases h
        intro v hv
        simp_all
  · simp at h

/-- The task field handler never forgets an already-populated slot. -/
theorem taskStep_preserves :
    ∀ k st tts st2 rest, Parse.taskStep k st tts = .ok (st2, rest) →
      (∀ v, st.enabled = some v → st2.enabled = some v) ∧
      (∀ v, st.priority = some v → st2.priority = some v) ∧
      (∀ v, st.resources = some v → st2.resources = some v) := by
  intro k st tts st2 rest h
  unfold Parse.taskStep at h
  split at h
  · split at h
    · simp at h
    · split at h
      · simp at h
      · cases h
        refine ⟨?_, ?_, ?_⟩ <;> intro v hv <;> simp_all
  · split at h
    · simp at h
    · split at h
      · simp at h
      · cases h
        refine ⟨?_, ?_, ?_⟩ <;> intro v hv <;> simp_all
  · split at h
    · simp at h
    · split at h
      · simp at h
      · cases h
        refine ⟨?_, ?_, ?_⟩ <;> intro v hv <;> simp_all
  · simp at h

/-- The tasks-map handler only appends: it never removes or replaces an
existing task entry. -/
theorem tasksStep_preserves :
    ∀ k m tts m2 rest, Parse.tasksStep k m tts = .ok (m2, rest) →
      ∀ p, p ∈ m → p ∈ m2 := by
  intro k m tts m2 rest h p hp
  unfold Parse.tasksStep at h
  split at h
  · simp at h
  · split at h
    · simp at h
    · cases h
      exact List.mem_append_left _ hp

/-- The statics-map loop only appends: it never removes or replaces an
existing resource entry. -/
theorem staticsGo_preserves :
    ∀ fuel acc tts m2, Parse.staticsGo fuel acc tts = .ok m2 →
      ∀ p, p ∈ acc → p ∈ m2 := by
  intro fuel
  induction fuel with
  | zero =>
      intro acc tts m2 h
      simp [Parse.staticsGo] at h
  | succ n ih =>
      intro acc tts m2 h p hp
      rcases tts with _ | ⟨tt, tts⟩
      · simp [Parse.staticsGo] at h; exact h ▸ hp
      rcases tt with t | ⟨d, grp⟩
      case Delimited => simp [Parse.staticsGo] at h
      rcases t with s | _ | _ | _ | _ | l | s
      case Colon => simp [Parse.staticsGo] at h
      case Comma => simp [Parse.staticsGo] at h
      case Semi => simp [Parse.staticsGo] at h
      case Eq => simp [Parse.staticsGo] at h
      case Literal => simp [Parse.staticsGo] at h
      case Other => simp [Parse.staticsGo] at h
      case Ident =>
        simp only [Parse.staticsGo] at h
        split at h
        · simp at h
        · split at h
          · split at h
            · simp at h
            · exact ih _ _ _ h p (List.mem_append_left _ hp)
          · simp at h

/-- The identifier-set loop only appends (stated with an explicit length
bound for the two-step recursion): it never removes an identifier already
collected. -/
theorem identsGo_preserves :
    ∀ n tts acc s2, tts.length ≤ n → Parse.identsGo acc tts = .ok s2 →
      ∀ a, a ∈ acc → a ∈ s2 := by
  intro n
  induction n with
  | zero =>
      intro tts acc s2 hle h a ha
      rcases tts with _ | ⟨tt, tts⟩
      · simp [Parse.identsGo] at h; exact h ▸ ha
      · simp at hle
  | succ n ih =>
      intro tts acc s2 hle h a ha
      rcases tts with _ | ⟨tt, tts⟩
      · simp [Parse.identsGo] at h; exact h ▸ ha
      rcases tt with t | ⟨d, grp⟩
      case Delimited => simp [Parse.identsGo] at h
      rcases t with s | _ | _ | _ | _ | l | s
      case Colon => simp [Parse.identsGo] at h
      case Comma => simp [Parse.identsGo] at h
      case Semi => simp [Parse.identsGo] at h
      case Eq => simp [Parse.identsGo] at h
      case Literal => simp [Parse.identsGo] at h
      case Other => simp [Parse.identsGo] at h
      case Ident =>
        simp only [Parse.identsGo] at h
        split at h
        · simp at h
        · rcases tts with _ | ⟨tt2, tts2⟩
          · simp at h
            exact h ▸ List.mem_append_left _ ha
          · simp only [List.cons.injEq] at h
            split at h
            · rcases tts2 with _ | ⟨tt3, tts3⟩
              · simp at h
                exact h ▸ List.mem_append_left _ ha
              · refine ih (tt3 :: tts3) (acc ++ [s]) s2 ?_ (by simpa using h) a
                  (List.mem_append_left _ ha)
                simp at hle ⊢
                omega
            · simp at h


/-- An accepted input omitting `device` (the other two mandatory fields
present). -/
def minimalNoDevice : List TokenTree :=
  [tId "idle", tColon, tBrace [tId "path", tColon, tId "p", tComma], tComma,
   tId "init", tColon, tBrace [tId "path", tColon, tId "q", tComma]]

/-- An input with `device` and `init` but no `idle`. -/
def minimalNoIdle : List TokenTree :=
  [tId "device", tColon, tId "d", tComma,
   tId "init", tColon, tBrace [tId "path", tColon, tId "q", tComma]]

/-- An input with `device` and `idle` but no `init`. -/
def minimalNoInit : List TokenTree :=
  [tId "device", tColon, tId "d", tComma,
   tId "idle", tColon, tBrace [tId "path", tColon, tId "p", tComma]]

/-- C1 counterexample: `minimalInput` — a bare eleven-token field list, not a
single brace-delimited group — is accepted by the top-level parser, and
wrapping the same stream in one outer brace group is rejected.  This refutes
the claim that every accepted top-level token sequence consists of exactly
one brace-delimited group. -/
theorem app_accepts_bare_input :
    Parse.app minimalInput
      = .ok { device := [tId "d"],
              idle := { locals := [], path := [tId "p"], resources := [] },
              init := { path := [tId "q"] }, resources := [], tasks := [] } ∧
    minimalInput.length = 11 ∧
    isErr (Parse.app [tBrace minimalInput]) = true :=
  ⟨rfl, rfl, rfl⟩

/-- C1 (amended): the top-level parser walks the field list directly on the
full token stream — an input consisting of one outer brace-delimited group is
always rejected, while a bare field list is accepted — and the descent into a
brace-delimited group via the delimited-group primitive happens in the
sub-parsers (here shown for `idle`: a brace group is required and entered, a
leaf token in that position is rejected, and a wrong delimiter kind is
rejected for identifier sets). -/
theorem app_walks_fields_directly :
    (∀ inner : List TokenTree, isErr (Parse.app [.Delimited .Brace inner]) = true) ∧
    Parse.app minimalInput
      = .ok { device := [tId "d"],
              idle := { locals := [], path := [tId "p"], resources := [] },
              init := { path := [tId "q"] }, resources := [], tasks := [] } ∧
    Parse.idle (tBrace [tId "path", tColon, tId "f", tComma] :: [tId "x"])
      = .ok ({ locals := [], path := [tId "f"], resources := [] }, [tId "x"]) ∧
    (∀ (t : Token) rest, isErr (Parse.idle (.Token t :: rest)) = true) ∧
    (∀ inner rest, isErr (Parse.idents (.Delimited .Brace inner :: rest)) = true) :=
  ⟨fun _ => rfl, rfl, rfl, fun _ _ => rfl, fun _ _ => rfl⟩

/-- C2 counterexample: the scenario input exactly as the spec writes it fails
both readings — as one outer brace group (the top level never descends into a
group) and as the bare field list (the `path` captures inside `idle`/`init`
reach end-of-group without finding their terminating comma). -/
theorem scenario_as_written_fails :
    isErr (Parse.app [tBrace scenarioBody]) = true ∧
    isErr (Parse.app scenarioBody) = true :=
  ⟨rfl, rfl⟩

/-- C2 (amended): the scenario parses once written as the bare field list with
a trailing comma after each `path` fragment, and then yields exactly the
claimed App: one resource `R`, one task `t1` with priority 1 and resource set
`{R}`, and `enabled` absent. -/
theorem scenario_fixed_parses :
    Parse.app scenarioFixed
      = .ok { device := [tId "stm32"],
              idle := { locals := [], path := [tId "idle_fn"], resources := [] },
              init := { path := [tId "init_fn"] },
              resources := [("R", { expr := [tInt 0], ty := [tId "u8"] })],
              tasks := [("t1", { enabled := none, priority := some 1,
                                 resources := ["R"] })] } :=
  rfl

/-- C7 counterexample: after an identifier, a comma followed directly by the
end of the bracket group is accepted (the set `[a,]` parses to `{a}`),
refuting the claim that after each identifier only "comma followed by at least
one more identifier" or "end-of-sequence" can follow. -/
theorem idents_trailing_comma_accepted :
    Parse.idents [tBracket [tId "a", tComma]] = .ok (["a"], []) :=
  rfl

/-- C7 (amended): after each consumed identifier the set parser requires a
comma or end-of-group; after a comma, either another identifier follows or
the group may end (a trailing comma is accepted).  `[a, b]` yields the
two-element set, `[]` yields the empty set, a non-comma token after an
identifier fails, and a non-identifier token after a comma fails. -/
theorem idents_separator_discipline :
    (∀ a b : String, a ≠ b →
      Parse.idents [tBracket [tId a, tComma, tId b]] = .ok ([a, b], [])) ∧
    Parse.idents [tBracket []] = .ok ([], []) ∧
    (∀ (s : List String) a, s.contains a = false →
      Parse.identsGo s [tId a, tComma] = .ok (s ++ [a])) ∧
    (∀ (s : List String) a tt rest, s.contains a = false → isComma tt = false →
      isErr (Parse.identsGo s (tId a :: tt :: rest)) = true) ∧
    (∀ (s : List String) a t rest, s.contains a = false →
      (∀ x, t ≠ Token.Ident x) →
      isErr (Parse.identsGo s (tId a :: tComma :: .Token t :: rest)) = true) := by
  refine ⟨?_, rfl, ?_, ?_, ?_⟩
  · intro a b hab
    simp [Parse.idents, Parse.delimited, Parse.identsGo, isComma, Ne.symm hab]
  · intro s a hs
    replace hs : a ∉ s := by simpa using hs
    simp [Parse.identsGo, hs, isComma]
  · intro s a tt rest hs htt
    replace hs : a ∉ s := by simpa using hs
    simp [Parse.identsGo, hs, htt, isErr]
  · intro s a t rest hs ht
    replace hs : a ∉ s := by simpa using hs
    cases t
    case Ident x => exact absurd rfl (ht x)
    all_goals simp [Parse.identsGo, hs, isComma, isErr]

/-- C7 witness: the amended statement evaluated at concrete sets. -/
theorem idents_separator_discipline_witness :
    Parse.idents [tBracket [tId "a", tComma, tId "b"]] = .ok (["a", "b"], []) ∧
    Parse.identsGo ["x"] [tId "a", tComma] = .ok ["x", "a"] ∧
    isErr (Parse.identsGo [] [tId "a", tId "b"]) = true ∧
    isErr (Parse.identsGo [] [tId "a", tComma, .Token .Semi]) = true :=
  ⟨idents_separator_discipline.1 "a" "b" (by decide),
   idents_separator_discipline.2.2.1 ["x"] "a" rfl,
   idents_separator_discipline.2.2.2.1 [] "a" (tId "b") [] rfl rfl,
   idents_separator_discipline.2.2.2.2 [] "a" Token.Semi [] rfl
     (fun x h => Token.noConfusion h)⟩

/-- C8: on the duplicate set `[a, b, a]` the parse fails, but with the literal
message `ident \x7b\x7d listed more than once` — the source forgot the format
argument of its `ensure!`, so the message does not name the repeated
identifier (unlike the statics and tasks duplicate messages). -/
theorem idents_duplicate_message_constant :
    Parse.idents [tBracket [tId "a", tComma, tId "b", tComma, tId "a"]]
      = .error "ident \x7b\x7d listed more than once" :=
  rfl

/-- C9: App assembly after a successful field walk — a missing `device`,
`idle` or `init` slot yields the missing-field error naming that field (in
that order of priority), full slots assemble the App with absent
`resources`/`tasks` defaulting to empty maps; end-to-end, dropping any one
mandatory field from an otherwise-valid input gives the corresponding
message, and an input without `resources`/`tasks` still parses. -/
theorem app_assembly_defaults :
    (∀ st : Parse.AppState, st.device = none →
      Parse.mkApp st = .error "`device` field is missing") ∧
    (∀ (st : Parse.AppState) d, st.device = some d → st.idle = none →
      Parse.mkApp st = .error "`idle` field is missing") ∧
    (∀ (st : Parse.AppState) d i, st.device = some d → st.idle = some i →
      st.init = none → Parse.mkApp st = .error "`init` field is missing") ∧
    (∀ (st : Parse.AppState) d i n, st.device = some d → st.idle = some i →
      st.init = some n →
      Parse.mkApp st = .ok { device := d, idle := i, init := n,
                             resources := st.resources.getD [],
                             tasks := st.tasks.getD [] }) ∧
    Parse.app minimalNoDevice = .error "`device` field is missing" ∧
    Parse.app minimalNoIdle = .error "`idle` field is missing" ∧
    Parse.app minimalNoInit = .error "`init` field is missing" ∧
    Parse.app minimalInput
      = .ok { device := [tId "d"],
              idle := { locals := [], path := [tId "p"], resources := [] },
              init := { path := [tId "q"] }, resources := [], tasks := [] } := by
  refine ⟨?_, ?_, ?_, ?_, rfl, rfl, rfl, rfl⟩
  · intro st h
    simp [Parse.mkApp, h]
  · intro st d h1 h2
    simp [Parse.mkApp, h1, h2]
  · intro st d i h1 h2 h3
    simp [Parse.mkApp, h1, h2, h3]
  · intro st d i n h1 h2 h3
    simp [Parse.mkApp, h1, h2, h3]

/-- C9 witness: the assembly cases evaluated at concrete states. -/
theorem app_assembly_defaults_witness :
    Parse.mkApp {} = .error "`device` field is missing" ∧
    Parse.mkApp { device := some [tId "d"] } = .error "`idle` field is missing" ∧
    Parse.mkApp { device := some [tId "d"],
                  idle := some { locals := [], path := [tId "p"], resources := [] } }
      = .error "`init` field is missing" ∧
    Parse.mkApp { device := some [tId "d"],
                  idle := some { locals := [], path := [tId "p"], resources := [] },
                  init := some { path := [tId "q"] } }
      = .ok { device := [tId "d"],
              idle := { locals := [], path := [tId "p"], resources := [] },
              init := { path := [tId "q"] }, resources := [], tasks := [] } :=
  ⟨app_assembly_defaults.1 {} rfl,
   app_assembly_defaults.2.1 { device := some [tId "d"] } [tId "d"] rfl rfl,
   app_assembly_defaults.2.2.1 _ [tId "d"]
     { locals := [], path := [tId "p"], resources := [] } rfl rfl rfl,
   app_assembly_defaults.2.2.2.1 _ [tId "d"]
     { locals := [], path := [tId "p"], resources := [] }
     { path := [tId "q"] } rfl rfl rfl⟩

/-- C10: the dotted-path capture has no non-emptiness requirement — a capture
position immediately followed by its top-level comma succeeds with the empty
fragment, so a whole App with empty `device` and `path` fragments is
produced; by contrast a `static_` whose type or initializer fragment is empty
is rejected. -/
theorem path_empty_fragment_ok :
    (∀ rest, Parse.path (.Token .Comma :: rest) = .ok ([], .Token .Comma :: rest)) ∧
    Parse.app emptyFragInput
      = .ok { device := [], idle := { locals := [], path := [], resources := [] },
              init := { path := [] }, resources := [], tasks := [] } ∧
    (∀ rest, Parse.static_ (.Token .Eq :: rest) = .error "type is missing") ∧
    Parse.static_ [tId "u8", tEq, tSemi] = .error "initial value is missing" :=
  ⟨fun _ => rfl, rfl, fun _ => rfl, rfl⟩


/-- C5: a static declaration splits at the first top-level equals sign and
the first top-level semicolon after it — succeeding exactly when both
terminators exist and both fragments are non-empty, with nested delimited
groups treated as opaque units (the fragments may contain groups enclosing
`=` or `;`, and a group in the type position is captured whole) — and
`x: u8 = 0;` inside a statics map yields `ty = u8`, `expr = 0`, while
`x: Foo<Bar> = Foo::new();` splits around the punctuation correctly. -/
theorem static_decl_split :
    (∀ ty ex r : List TokenTree, hasTopEq ty = false → ty ≠ [] →
      hasTopSemi ex = false → ex ≠ [] →
      Parse.static_ (ty ++ .Token .Eq :: (ex ++ .Token .Semi :: r))
        = .ok ({ expr := ex, ty := ty }, r)) ∧
    (∀ ts : List TokenTree, hasTopEq ts = false →
      Parse.static_ ts = .error "expected Equal, found end of macro") ∧
    (∀ r, Parse.static_ (.Token .Eq :: r) = .error "type is missing") ∧
    (∀ ty ex : List TokenTree, hasTopEq ty = false → ty ≠ [] →
      hasTopSemi ex = false →
      Parse.static_ (ty ++ .Token .Eq :: ex)
        = .error "expected Semicolon, found end of macro") ∧
    Parse.static_ [tId "u8", tEq, tSemi] = .error "initial value is missing" ∧
    Parse.statics [tBrace [tId "R", tColon, tId "u8", tEq, tInt 0, tSemi]]
      = .ok ([("R", { expr := [tInt 0], ty := [tId "u8"] })], []) ∧
    Parse.statics [tBrace [tId "x", tColon, tId "Foo", tOther "<", tId "Bar",
        tOther ">", tEq, tId "Foo", tOther "::", tId "new", tParen [], tSemi]]
      = .ok ([("x", { expr := [tId "Foo", tOther "::", tId "new", tParen []],
                      ty := [tId "Foo", tOther "<", tId "Bar", tOther ">"] })], []) ∧
    Parse.static_ [tParen [tEq, tSemi], tEq, tInt 0, tSemi]
      = .ok ({ expr := [tInt 0], ty := [tParen [tEq, tSemi]] }, []) := by
  refine ⟨?_, ?_, fun _ => rfl, ?_, rfl, rfl, rfl, rfl⟩
  · intro ty ex r hty htyne hex hexne
    obtain ⟨t, ts, rfl⟩ := List.exists_cons_of_ne_nil htyne
    obtain ⟨e, es, rfl⟩ := List.exists_cons_of_ne_nil hexne
    have hq := takeUntilEq_append ((e :: es) ++ .Token .Semi :: r) (t :: ts) hty
    have hs := takeUntilSemi_append r (e :: es) hex
    simp at hq hs
    simp [Parse.static_, hq, hs]
  · intro ts hts
    simp [Parse.static_, takeUntilEq_none ts hts]
  · intro ty ex hty htyne hex
    obtain ⟨t, ts, rfl⟩ := List.exists_cons_of_ne_nil htyne
    have hq := takeUntilEq_append ex (t :: ts) hty
    simp at hq
    simp [Parse.static_, hq, takeUntilSemi_none ex hex]

/-- C5 witness: the scan cases evaluated at concrete declarations. -/
theorem static_decl_split_witness :
    Parse.static_ [tId "u8", tEq, tInt 0, tSemi, tId "z"]
      = .ok ({ expr := [tInt 0], ty := [tId "u8"] }, [tId "z"]) ∧
    Parse.static_ [tId "u8", tInt 0] = .error "expected Equal, found end of macro" ∧
    Parse.static_ [tId "u8", tEq, tInt 0]
      = .error "expected Semicolon, found end of macro" :=
  ⟨static_decl_split.1 [tId "u8"] [tInt 0] [tId "z"] rfl (List.cons_ne_nil _ _)
     rfl (List.cons_ne_nil _ _),
   static_decl_split.2.1 [tId "u8", tInt 0] rfl,
   static_decl_split.2.2.2.1 [tId "u8"] [tInt 0] rfl (List.cons_ne_nil _ _) rfl⟩

/-- C6: the integer coercer accepts exactly the unsuffixed integer literals
with value below 256 (an if-and-only-if characterization of its successes);
256 and above fail with the out-of-range message, while a suffixed literal, a
non-integer literal, or a non-literal token (such as the minus sign of a
signed `-1`) fails with the expected-integer message; at the task level,
`priority: 255` succeeds with 255, `priority: 256` fails the range check and
`priority: -1` fails the integer-kind check. -/
theorem u8_range_check :
    (∀ (tt : Option TokenTree) (v : Nat), Parse.u8 tt = .ok v ↔
      tt = some (.Token (.Literal (.Int v .Unsuffixed))) ∧ v < 256) ∧
    (∀ n, 256 ≤ n → Parse.u8 (some (.Token (.Literal (.Int n .Unsuffixed))))
      = .error (toString n ++ " is out of the `u8` range")) ∧
    (∀ n ity, ity ≠ IntTy.Unsuffixed →
      Parse.u8 (some (.Token (.Literal (.Int n ity))))
        = .error ("expected integer, found "
            ++ fmtOpt (some (.Token (.Literal (.Int n ity)))))) ∧
    Parse.u8 (some (tOther "-"))
      = .error ("expected integer, found " ++ fmtOpt (some (tOther "-"))) ∧
    (∀ b, Parse.u8 (some (.Token (.Literal (.Bool b))))
      = .error ("expected integer, found "
          ++ fmtOpt (some (.Token (.Literal (.Bool b)))))) ∧
    Parse.task [tBrace [tId "priority", tColon, tInt 255]]
      = .ok ({ enabled := none, priority := some 255, resources := [] }, []) ∧
    Parse.task [tBrace [tId "priority", tColon, tInt 256]]
      = .error (chainErr "parsing `priority`" "256 is out of the `u8` range") ∧
    Parse.task [tBrace [tId "priority", tColon, tOther "-", tInt 1]]
      = .error (chainErr "parsing `priority`"
          ("expected integer, found " ++ fmtOpt (some (tOther "-")))) := by
  refine ⟨?_, ?_, ?_, rfl, fun _ => rfl, rfl, rfl, rfl⟩
  · intro tt v
    constructor
    · intro h
      rcases tt with _ | tt
      · simp [Parse.u8] at h
      rcases tt with t | ⟨dd, grp⟩
      case Delimited => simp [Parse.u8] at h
      rcases t with s | _ | _ | _ | _ | l | s
      case Ident => simp [Parse.u8] at h
      case Colon => simp [Parse.u8] at h
      case Comma => simp [Parse.u8] at h
      case Semi => simp [Parse.u8] at h
      case Eq => simp [Parse.u8] at h
      case Other => simp [Parse.u8] at h
      case Literal =>
        rcases l with s | c | ⟨n, ity⟩ | b | s
        case Str => simp [Parse.u8] at h
        case CharLit => simp [Parse.u8] at h
        case Bool => simp [Parse.u8] at h
        case Float => simp [Parse.u8] at h
        case Int =>
          cases ity
          case Unsuffixed =>
            simp only [Parse.u8] at h
            split at h
            · cases h
              exact ⟨rfl, by assumption⟩
            · simp at h
          all_goals simp [Parse.u8] at h
    · rintro ⟨rfl, hlt⟩
      simp [Parse.u8, hlt]
  · intro n hn
    simp only [Parse.u8]
    rw [if_neg (by omega)]
  · intro n ity hity
    cases ity
    case Unsuffixed => exact absurd rfl hity
    all_goals rfl

/-- C6 witness: the coercer evaluated at the boundary values. -/
theorem u8_range_check_witness :
    Parse.u8 (some (tInt 255)) = .ok 255 ∧
    Parse.u8 (some (tInt 256)) = .error "256 is out of the `u8` range" ∧
    Parse.u8 (some (.Token (.Literal (.Int 1 .U8))))
      = .error ("expected integer, found "
          ++ fmtOpt (some (.Token (.Literal (.Int 1 .U8))))) :=
  ⟨((u8_range_check.1 (some (tInt 255)) 255).mpr ⟨rfl, by decide⟩),
   u8_range_check.2.1 256 (by decide),
   u8_range_check.2.2.1 1 IntTy.U8 (by decide)⟩


/-- C4: in every enclosing construct a repeated key or name makes the parse
fail with an error, whatever came before (the state is arbitrary, so this
covers every field order): a second `device`/`idle`/`init`/`resources`/
`tasks` at top level, a second `path`/`locals`/`resources` in an idle block,
a second `path` in an init block, a second `enabled`/`priority`/`resources`
in a task block, a repeated task name, a repeated resource name, and a
repeated set identifier all fail with the corresponding duplicate message;
moreover nothing is ever silently overwritten: every successful loop run
keeps each already-populated slot at its first value and keeps every
already-inserted map or set entry; finally, two concrete end-to-end
duplicates fail. -/
theorem duplicate_keys_fail :
    (∀ (st : Parse.AppState) v rest, st.device = some v →
      Parse.fields Parse.appStep st (tId "device" :: tColon :: rest)
        = .error "duplicated `device` field") ∧
    (∀ (st : Parse.AppState) v rest, st.idle = some v →
      Parse.fields Parse.appStep st (tId "idle" :: tColon :: rest)
        = .error "duplicated `idle` field") ∧
    (∀ (st : Parse.AppState) v rest, st.init = some v →
      Parse.fields Parse.appStep st (tId "init" :: tColon :: rest)
        = .error "duplicated `init` field") ∧
    (∀ (st : Parse.AppState) v rest, st.resources = some v →
      Parse.fields Parse.appStep st (tId "resources" :: tColon :: rest)
        = .error "duplicated `resources` field") ∧
    (∀ (st : Parse.AppState) v rest, st.tasks = some v →
      Parse.fields Parse.appStep st (tId "tasks" :: tColon :: rest)
        = .error "duplicated `tasks` field") ∧
    (∀ (st : Parse.IdleState) v rest, st.path = some v →
      Parse.fields Parse.idleStep st (tId "path" :: tColon :: rest)
        = .error "duplicated `path` field") ∧
    (∀ (st : Parse.IdleState) v rest, st.locals = some v →
      Parse.fields Parse.idleStep st (tId "locals" :: tColon :: rest)
        = .error "duplicated `locals` field") ∧
    (∀ (st : Parse.IdleState) v rest, st.resources = some v →
      Parse.fields Parse.idleStep st (tId "resources" :: tColon :: rest)
        = .error "duplicated `resources` field") ∧
    (∀ (st : Parse.InitState) v rest, st.path = some v →
      Parse.fields Parse.initStep st (tId "path" :: tColon :: rest)
        = .error "duplicated `path` field") ∧
    (∀ (st : Parse.TaskState) v rest, st.enabled = some v →
      Parse.fields Parse.taskStep st (tId "enabled" :: tColon :: rest)
        = .error "duplicated `enabled` field") ∧
    (∀ (st : Parse.TaskState) v rest, st.priority = some v →
      Parse.fields Parse.taskStep st (tId "priority" :: tColon :: rest)
        = .error "duplicated `priority` field") ∧
    (∀ (st : Parse.TaskState) v rest, st.resources = some v →
      Parse.fields Parse.taskStep st (tId "resources" :: tColon :: rest)
        = .error "duplicated `resources` field") ∧
    (∀ (m : Tasks) k rest, containsKey m k = true →
      Parse.fields Parse.tasksStep m (tId k :: tColon :: rest)
        = .error ("task " ++ k ++ " listed more than once")) ∧
    (∀ fuel (m : Statics) k rest, containsKey m k = true →
      Parse.staticsGo (fuel + 1) m (tId k :: rest)
        = .error ("resource " ++ k ++ " listed more than once")) ∧
    (∀ (s : Idents) a rest, s.contains a = true →
      Parse.identsGo s (tId a :: rest)
        = .error "ident \x7b\x7d listed more than once") ∧
    (∀ fuel (st : Parse.AppState) tts st2,
      Parse.fieldsGo Parse.appStep fuel st tts = .ok st2 →
        (∀ v, st.device = some v → st2.device = some v) ∧
        (∀ v, st.idle = some v → st2.idle = some v) ∧
        (∀ v, st.init = some v → st2.init = some v) ∧
        (∀ v, st.resources = some v → st2.resources = some v) ∧
        (∀ v, st.tasks = some v → st2.tasks = some v)) ∧
    (∀ fuel (st : Parse.IdleState) tts st2,
      Parse.fieldsGo Parse.idleStep fuel st tts = .ok st2 →
        (∀ v, st.locals = some v → st2.locals = some v) ∧
        (∀ v, st.path = some v → st2.path = some v) ∧
        (∀ v, st.resources = some v → st2.resources = some v)) ∧
    (∀ fuel (st : Parse.InitState) tts st2,
      Parse.fieldsGo Parse.initStep fuel st tts = .ok st2 →
        ∀ v, st.path = some v → st2.path = some v) ∧
    (∀ fuel (st : Parse.TaskState) tts st2,
      Parse.fieldsGo Parse.taskStep fuel st tts = .ok st2 →
        (∀ v, st.enabled = some v → st2.enabled = some v) ∧
        (∀ v, st.priority = some v → st2.priority = some v) ∧
        (∀ v, st.resources = some v → st2.resources = some v)) ∧
    (∀ fuel (m : Tasks) tts m2 p,
      Parse.fieldsGo Parse.tasksStep fuel m tts = .ok m2 → p ∈ m → p ∈ m2) ∧
    (∀ fuel (m : Statics) tts m2 p,
      Parse.staticsGo fuel m tts = .ok m2 → p ∈ m → p ∈ m2) ∧
    (∀ tts (acc s2 : Idents) a,
      Parse.identsGo acc tts = .ok s2 → a ∈ acc → a ∈ s2) ∧
    Parse.app [tId "device", tColon, tId "x", tComma,
               tId "device", tColon, tId "y", tComma]
      = .error "duplicated `device` field" ∧
    Parse.statics [tBrace [tId "R", tColon, tId "u8", tEq, tInt 0, tSemi,
                           tId "R", tColon, tId "u8", tEq, tInt 1, tSemi]]
      = .error "resource R listed more than once" ∧
    Parse.tasks [tBrace [tId "t1", tColon, tBrace [], tComma,
                         tId "t1", tColon, tBrace []]]
      = .error "task t1 listed more than once" := by
  refine ⟨?_, ?_, ?_, ?_, ?_, ?_, ?_, ?_, ?_, ?_, ?_, ?_, ?_, ?_, ?_,
          ?_, ?_, ?_, ?_, ?_, ?_, ?_, rfl, rfl, rfl⟩
  · intro st v rest h
    simp [Parse.fields, Parse.fieldsGo, Parse.appStep, h]
  · intro st v rest h
    simp [Parse.fields, Parse.fieldsGo, Parse.appStep, h]
  · intro st v rest h
    simp [Parse.fields, Parse.fieldsGo, Parse.appStep, h]
  · intro st v rest h
    simp [Parse.fields, Parse.fieldsGo, Parse.appStep, h]
  · intro st v rest h
    simp [Parse.fields, Parse.fieldsGo, Parse.appStep, h]
  · intro st v rest h
    simp [Parse.fields, Parse.fieldsGo, Parse.idleStep, h]
  · intro st v rest h
    simp [Parse.fields, Parse.fieldsGo, Parse.idleStep, h]
  · intro st v rest h
    simp [Parse.fields, Parse.fieldsGo, Parse.idleStep, h]
  · intro st v rest h
    simp [Parse.fields, Parse.fieldsGo, Parse.initStep, h]
  · intro st v rest h
    simp [Parse.fields, Parse.fieldsGo, Parse.taskStep, h]
  · intro st v rest h
    simp [Parse.fields, Parse.fieldsGo, Parse.taskStep, h]
  · intro st v rest h
    simp [Parse.fields, Parse.fieldsGo, Parse.taskStep, h]
  · intro m k rest h
    simp [Parse.fields, Parse.fieldsGo, Parse.tasksStep, h]
  · intro fuel m k rest h
    simp [Parse.staticsGo, h]
  · intro sIds a rest h
    replace h : a ∈ sIds := by simpa using h
    simp [Parse.identsGo, h]
  · intro fuel st tts st2 hrun
    refine ⟨?_, ?_, ?_, ?_, ?_⟩ <;> intro v hv
    · exact fieldsGo_preserve _ (fun q => q.device = some v)
        (fun k q t q2 r h hp => (appStep_preserves k q t q2 r h).1 v hp)
        fuel st tts st2 hrun hv
    · exact fieldsGo_preserve _ (fun q => q.idle = some v)
        (fun k q t q2 r h hp => (appStep_preserves k q t q2 r h).2.1 v hp)
        fuel st tts st2 hrun hv
    · exact fieldsGo_preserve _ (fun q => q.init = some v)
        (fun k q t q2 r h hp => (appStep_preserves k q t q2 r h).2.2.1 v hp)
        fuel st tts st2 hrun hv
    · exact fieldsGo_preserve _ (fun q => q.resources = some v)
        (fun k q t q2 r h hp => (appStep_preserves k q t q2 r h).2.2.2.1 v hp)
        fuel st tts st2 hrun hv
    · exact fieldsGo_preserve _ (fun q => q.tasks = some v)
        (fun k q t q2 r h hp => (appStep_preserves k q t q2 r h).2.2.2.2 v hp)
        fuel st tts st2 hrun hv
  · intro fuel st tts st2 hrun
    refine ⟨?_, ?_, ?_⟩ <;> intro v hv
    · exact fieldsGo_preserve _ (fun q => q.locals = some v)
        (fun k q t q2 r h hp => (idleStep_preserves k q t q2 r h).1 v hp)
        fuel st tts st2 hrun hv
    · exact fieldsGo_preserve _ (fun q => q.path = some v)
        (fun k q t q2 r h hp => (idleStep_preserves k q t q2 r h).2.1 v hp)
        fuel st tts st2 hrun hv
    · exact fieldsGo_preserve _ (fun q => q.resources = some v)
        (fun k q t q2 r h hp => (idleStep_preserves k q t q2 r h).2.2 v hp)
        fuel st tts st2 hrun hv
  · intro fuel st tts st2 hrun v hv
    exact fieldsGo_preserve _ (fun q => q.path = some v)
      (fun k q t q2 r h hp => initStep_preserves k q t q2 r h v hp)
      fuel st tts st2 hrun hv
  · intro fuel st tts st2 hrun
    refine ⟨?_, ?_, ?_⟩ <;> intro v hv
    · exact fieldsGo_preserve _ (fun q => q.enabled = some v)
        (fun k q t q2 r h hp => (taskStep_preserves k q t q2 r h).1 v hp)
        fuel st tts st2 hrun hv
    · exact fieldsGo_preserve _ (fun q => q.priority = some v)
        (fun k q t q2 r h hp => (taskStep_preserves k q t q2 r h).2.1 v hp)
        fuel st tts st2 hrun hv
    · exact fieldsGo_preserve _ (fun q => q.resources = some v)
        (fun k q t q2 r h hp => (taskStep_preserves k q t q2 r h).2.2 v hp)
        fuel st tts st2 hrun hv
  · intro fuel m tts m2 p hrun hp
    exact fieldsGo_preserve _ (fun q => p ∈ q)
      (fun k q t q2 r h hq => tasksStep_preserves k q t q2 r h p hq)
      fuel m tts m2 hrun hp
  · intro fuel m tts m2 p hrun hp
    exact staticsGo_preserves fuel m tts m2 hrun p hp
  · intro tts acc s2 a hrun ha
    exact identsGo_preserves tts.length tts acc s2 le_rfl hrun a ha

/-- C4 witness: the duplicate-rejection and preservation statements evaluated
at concrete states and inputs. -/
theorem duplicate_keys_fail_witness :
    Parse.fields Parse.appStep
        ({ device := some [tId "x"] } : Parse.AppState)
        (tId "device" :: tColon :: [])
      = .error "duplicated `device` field" ∧
    Parse.fields Parse.idleStep
        ({ path := some [tId "p"] } : Parse.IdleState)
        (tId "path" :: tColon :: [])
      = .error "duplicated `path` field" ∧
    Parse.fields Parse.taskStep
        ({ priority := some 1 } : Parse.TaskState)
        (tId "priority" :: tColon :: [])
      = .error "duplicated `priority` field" ∧
    Parse.fields Parse.tasksStep
        [("t1", { enabled := none, priority := none, resources := [] })]
        (tId "t1" :: tColon :: [])
      = .error "task t1 listed more than once" ∧
    Parse.staticsGo 1 [("R", { expr := [tInt 0], ty := [tId "u8"] })]
        [tId "R"]
      = .error "resource R listed more than once" ∧
    Parse.identsGo ["a"] [tId "a"]
      = .error "ident \x7b\x7d listed more than once" :=
  ⟨duplicate_keys_fail.1 _ [tId "x"] [] rfl,
   duplicate_keys_fail.2.2.2.2.2.1 _ [tId "p"] [] rfl,
   duplicate_keys_fail.2.2.2.2.2.2.2.2.2.2.1 _ 1 [] rfl,
   duplicate_keys_fail.2.2.2.2.2.2.2.2.2.2.2.2.1 _ "t1" [] rfl,
   duplicate_keys_fail.2.2.2.2.2.2.2.2.2.2.2.2.2.1 0 _ "R" [] rfl,
   duplicate_keys_fail.2.2.2.2.2.2.2.2.2.2.2.2.2.2.1 ["a"] "a" [] rfl⟩

end Rtfm
